import Mathlib

/-!
Verification development for the subscription service repository.

The embedded code, translated from the Go source:

* the cost aggregator `SubscriptionService.GetTotalCost` (service layer),
  including the date handling it relies on from the Go standard library:
  `time.Parse("2006-01-02", s)`, `Time.AddDate`, `Time.Before`, and the
  month-walking loop that accumulates prices into a map keyed by
  (calendar month, calendar year);
* the row filter built by `SubscriptionRepository.GetSubscriptionsForTotalCost`
  (user id equality, optional service-name equality, optional inclusive
  start-date lower bound, optional end-date upper bound disjoined with NULL);
* the partial-update merge in `Handler.Update` and the delete flow
  `SubscriptionService.Delete` / `Handler.Delete` over a simple store model.

Modelling decisions:

* A Go `time.Time` instant is modelled by `GoTime`: a calendar date
  (year, month, day, all `Int`, normalized by construction) plus `clock`,
  the time of day (an abstract `Nat`; `0` for values produced by date
  parsing, arbitrary for the current time `now`, which the embedding takes
  as an explicit parameter instead of calling `time.Now()`).
  Comparison of instants (`Time.Before`) goes through `toAbsDays`, a
  day count in the proleptic Gregorian calendar, mirroring how Go compares
  absolute times; on the time of day it compares `clock`.
* `Time.AddDate(y, m, d)` is `addDate`, which normalizes exactly like
  `time.Date`: months are folded into years by euclidean division and an
  out-of-range day rolls across month boundaries (`rollGo`).  The roll is
  written with explicit fuel (`d.natAbs + 2` is enough for every input,
  since each roll moves the day by at least 28) so every definition stays
  executable by the kernel.  Inputs of this development always have
  day at least 1, matching what Go `Parse` and `AddDate` produce here.
* The aggregation loop `for d := start; d.Before(end); d = d.AddDate(0,1,0)`
  is `accGo` with fuel `loopFuel`, counted in days between the two
  instants: each iteration advances the instant by at least 28 days, so
  the fuel is an overapproximation of the iteration count and the fueled
  loop equals the unbounded loop (proved by the recurrence lemmas below).
* Go `int` is `Int`; UUIDs are `Nat` (only equality on them matters);
  fallible operations return `Except` / pairs with an error component,
  mirroring the `(value, error)` returns of the Go code.
-/

/-- A Go `time.Time` instant: a calendar date plus the time of day
(`clock`, abstract units within a day). -/
structure GoTime where
  year : Int
  month : Int
  day : Int
  clock : Nat
deriving DecidableEq

/-- Leap year test, from Go `time.isLeap`: divisibility by 4, 100, 400.
Divisibility by a positive constant is the same for Go truncated `%`
and euclidean `%`, so this is faithful for every year. -/
def isLeap (y : Int) : Bool := y % 4 == 0 && (y % 100 != 0 || y % 400 == 0)

/-- Length of a month, from Go `daysIn` (via the `daysBefore` table). -/
def daysInMonth (y m : Int) : Int :=
  if m = 2 then (if isLeap y then 29 else 28)
  else if m = 4 ∨ m = 6 ∨ m = 9 ∨ m = 11 then 30
  else 31

/-- Days of year y that precede month m, for m between 1 and 12:
the Go `daysBefore` cumulative table. -/
def daysBeforeMonth (y m : Int) : Int :=
  let l : Int := if isLeap y then 1 else 0
  if m ≤ 1 then 0
  else if m = 2 then 31
  else if m = 3 then 59 + l
  else if m = 4 then 90 + l
  else if m = 5 then 120 + l
  else if m = 6 then 151 + l
  else if m = 7 then 181 + l
  else if m = 8 then 212 + l
  else if m = 9 then 243 + l
  else if m = 10 then 273 + l
  else if m = 11 then 304 + l
  else 334 + l

/-- Days in all years before year y (proleptic Gregorian, counted from
year 0), the closed form of the leap-day count Go computes in
`daysSinceEpoch`. -/
def daysBeforeYear (y : Int) : Int :=
  365 * y + (y - 1) / 4 - (y - 1) / 100 + (y - 1) / 400

/-- Fold an arbitrary month number into the range 1..12, adjusting the
year: the `norm` step of Go `time.Date`. -/
def normMonth (y m : Int) : Int × Int :=
  (y + (m - 1) / 12, (m - 1) % 12 + 1)

/-- Absolute day count of an instant (linear in the day field), the
analogue of the absolute time Go stores internally and compares with. -/
def toAbsDays (t : GoTime) : Int :=
  let ym := normMonth t.year t.month
  daysBeforeYear ym.1 + daysBeforeMonth ym.1 ym.2 + (t.day - 1)

/-- Go `Time.Before`: compare absolute instants, first by day count and
then by time of day. -/
def before (t s : GoTime) : Bool :=
  decide (toAbsDays t < toAbsDays s ∨ (toAbsDays t = toAbsDays s ∧ t.clock < s.clock))

/-- Day normalization of Go `time.Date`: roll an out-of-range day across
month boundaries (both directions).  Fueled for executability; the fuel
passed by `goDate` is always sufficient because every step moves the day
by at least 28 towards the range. -/
def rollGo : Nat → Int → Int → Int → Int × Int × Int
  | 0, y, m, d => (y, m, d)
  | n + 1, y, m, d =>
    if d < 1 then
      let y2 := if m = 1 then y - 1 else y
      let m2 := if m = 1 then (12 : Int) else m - 1
      rollGo n y2 m2 (d + daysInMonth y2 m2)
    else if daysInMonth y m < d then
      let y2 := if m = 12 then y + 1 else y
      let m2 := if m = 12 then (1 : Int) else m + 1
      rollGo n y2 m2 (d - daysInMonth y m)
    else (y, m, d)

/-- Go `time.Date`: normalize month into the year, then normalize the day. -/
def goDate (y m d : Int) (clock : Nat) : GoTime :=
  let ym := normMonth y m
  let r := rollGo (d.natAbs + 2) ym.1 ym.2 d
  ⟨r.1, r.2.1, r.2.2, clock⟩

/-- Go `Time.AddDate(years, months, days)`, which is
`Date(year+years, month+months, day+days, clock...)`. -/
def addDate (t : GoTime) (years months days : Int) : GoTime :=
  goDate (t.year + years) (t.month + months) (t.day + days) t.clock

/-- Fuel bound for the month-walking loop from instant d to instant stop:
one unit per day between them.  Each loop iteration advances by at least
28 days, so this always dominates the iteration count. -/
def loopFuel (d stop : GoTime) : Nat := (toAbsDays stop - toAbsDays d + 1).toNat

/-- Digit value of a character (its code point minus 48). -/
def digitVal (c : Char) : Int := (c.toNat : Int) - 48

/-- Read the fixed layout digits of `YYYY-MM-DD` from a character list:
the shape check of Go `time.Parse("2006-01-02", s)`. -/
def readDigits : List Char → Option (Int × Int × Int)
  | [a, b, c, d, h1, e, f, h2, g, k] =>
    if h1 = '-' ∧ h2 = '-' ∧ a.isDigit ∧ b.isDigit ∧ c.isDigit ∧ d.isDigit ∧
        e.isDigit ∧ f.isDigit ∧ g.isDigit ∧ k.isDigit then
      some (1000 * digitVal a + 100 * digitVal b + 10 * digitVal c + digitVal d,
            (10 * digitVal e + digitVal f, 10 * digitVal g + digitVal k))
    else none
  | _ => none

/-- Range validation of Go `time.Parse`: month 1..12 and day within the
month (Go rejects these with "month out of range" / "day out of range").
A successfully parsed value sits at midnight: clock 0. -/
def mkParsedDate (y m d : Int) : Option GoTime :=
  if 1 ≤ m ∧ m ≤ 12 ∧ 1 ≤ d ∧ d ≤ daysInMonth y m then some ⟨y, m, d, 0⟩ else none

/-- Go `time.Parse("2006-01-02", s)` restricted to what that layout
accepts: exactly ten characters, digits in the date positions, dashes in
between, month and day in range. -/
def parseDate (s : String) : Option GoTime :=
  match readDigits s.toList with
  | some (y, m, d) => mkParsedDate y m d
  | none => none

/-- The subscription entity, from `model.Subscription` (Go): UUID fields
are modelled as `Nat`, `Price` is a Go `int`, `StartDate` is a string,
`EndDate` a nullable string. -/
structure Subscription where
  id : Nat
  serviceName : String
  price : Int
  userID : Nat
  startDate : String
  endDate : Option String
deriving DecidableEq

/-- Errors surfaced by the repository layer: the distinguished
`postgres.ErrNotFound` and any other database error. -/
inductive SvcError
  | errNotFound
  | dbError (msg : String)
deriving DecidableEq

/-- The accumulator `monthlyCosts : map[time.Month]map[int]int` of
`GetTotalCost`, flattened to an association list keyed by
(month, year).  The nested Go maps carry exactly this association of
(month, year) keys to accumulated costs. -/
abbrev CostMap := List ((Int × Int) × Int)

/-- The `monthlyCosts[d.Month()][d.Year()] += sub.Price` update. -/
def bump (key : Int × Int) (p : Int) : CostMap → CostMap
  | [] => [(key, p)]
  | (k, v) :: rest => if k = key then (k, v + p) :: rest else (k, v) :: bump key p rest

/-- The final double loop of `GetTotalCost` that sums every bucket of
`monthlyCosts` into `totalCost` (iteration order is irrelevant to a sum). -/
def mapTotal (mcs : CostMap) : Int := (mcs.map Prod.snd).sum

/-- The inner loop of `GetTotalCost`,
`for d := start; d.Before(end); d = d.AddDate(0, 1, 0) { bump }`,
with explicit fuel. -/
def accGo (stop : GoTime) (price : Int) : Nat → GoTime → CostMap → CostMap
  | 0, _, acc => acc
  | n + 1, d, acc =>
    if before d stop then
      accGo stop price n (addDate d 0 1 0) (bump (d.month, d.year) price acc)
    else acc

/-- The inner loop of `GetTotalCost` run with sufficient fuel. -/
def accumulateMonths (d stop : GoTime) (price : Int) (acc : CostMap) : CostMap :=
  accGo stop price (loopFuel d stop) d acc

/-- Number of iterations of the month-walking loop from d (inclusive)
while strictly before stop, fueled like `accGo`. -/
def monthsCountGo (stop : GoTime) : Nat → GoTime → Nat
  | 0, _ => 0
  | n + 1, d => if before d stop then monthsCountGo stop n (addDate d 0 1 0) + 1 else 0

/-- Number of calendar months the loop charges between two instants. -/
def monthsCount (d stop : GoTime) : Nat := monthsCountGo stop (loopFuel d stop) d

/-- The per-subscription body of the `for _, sub := range subs` loop of
`GetTotalCost`: parse the start date (skip the record on failure), choose
the end instant (ten years past now when `EndDate` is nil, otherwise the
parsed end date, skipping the record when that parse fails), then walk
the months. -/
def processSubs (now : GoTime) : List Subscription → CostMap → CostMap
  | [], acc => acc
  | sub :: rest, acc =>
    match parseDate sub.startDate with
    | none => processSubs now rest acc
    | some start =>
      match sub.endDate with
      | none => processSubs now rest (accumulateMonths start (addDate now 10 0 0) sub.price acc)
      | some es =>
        match parseDate es with
        | none => processSubs now rest acc
        | some e => processSubs now rest (accumulateMonths start e sub.price acc)

/-- `SubscriptionService.GetTotalCost` after the repository call: the Go
function returns `(0, err)` when the filtered fetch fails, and otherwise
folds the fetched records into `monthlyCosts` and sums the buckets,
returning `(totalCost, nil)`.  The fetch outcome and the current time are
parameters. -/
def getTotalCost (now : GoTime) (fetched : Except SvcError (List Subscription)) :
    Int × Option SvcError :=
  match fetched with
  | .error e => (0, some e)
  | .ok subs => (mapTotal (processSubs now subs []), none)

/-- Specification-side value of one record in the aggregate: the price
times the number of charged months, zero when a date fails to parse.
Helper used to state the lemmas about `getTotalCost`. -/
def subCost (now : GoTime) (sub : Subscription) : Int :=
  match parseDate sub.startDate with
  | none => 0
  | some start =>
    match sub.endDate with
    | none => sub.price * (monthsCount start (addDate now 10 0 0) : Int)
    | some es =>
      match parseDate es with
      | none => 0
      | some e => sub.price * (monthsCount start e : Int)

/-- First day of the month with linear index n (index = 12 * year + month - 1),
at midnight.  Helper for reasoning about month-aligned dates. -/
def monthFirst (n : Int) : GoTime := ⟨n / 12, n % 12 + 1, 1, 0⟩

/-- Iterate the one-month step k times.  Helper for stating which months
the loop charges. -/
def iterMonths : Nat → GoTime → GoTime
  | 0, d => d
  | k + 1, d => iterMonths k (addDate d 0 1 0)

/-- A date as stored in a `DATE` column of the subscriptions table. -/
structure SqlDate where
  year : Int
  month : Int
  day : Int
deriving DecidableEq

/-- SQL comparison of two `DATE` values (chronological order). -/
def sqlDateLe (a b : SqlDate) : Bool :=
  decide (a.year < b.year ∨ (a.year = b.year ∧
    (a.month < b.month ∨ (a.month = b.month ∧ a.day ≤ b.day))))

/-- A row of the subscriptions table (dates as `DATE` values,
`end_date` nullable). -/
structure SubscriptionRow where
  id : Nat
  serviceName : String
  price : Int
  userID : Nat
  startDate : SqlDate
  endDate : Option SqlDate
deriving DecidableEq

/-- The WHERE clause built by `GetSubscriptionsForTotalCost`:
`user_id = $uid`, plus - each only when the corresponding argument is
supplied - `service_name = $sn`, `start_date >= $sf`, and
`(end_date IS NULL OR end_date <= $ef)`.  A NULL `end_date` compared
with `<=` yields NULL in SQL, hence the `false` branch. -/
def rowMatches (userID : Nat) (serviceName : String)
    (startFilter endFilter : Option SqlDate) (row : SubscriptionRow) : Bool :=
  (row.userID == userID)
  && (serviceName == "" || row.serviceName == serviceName)
  && (match startFilter with
      | none => true
      | some sf => sqlDateLe sf row.startDate)
  && (match endFilter with
      | none => true
      | some ef =>
        row.endDate.isNone ||
          (match row.endDate with
           | some e => sqlDateLe e ef
           | none => false))

/-- `SubscriptionRepository.GetSubscriptionsForTotalCost` as a filter over
the table contents. -/
def getSubscriptionsForTotalCost (table : List SubscriptionRow) (userID : Nat)
    (serviceName : String) (startFilter endFilter : Option SqlDate) :
    List SubscriptionRow :=
  table.filter (rowMatches userID serviceName startFilter endFilter)

/-- The persisted store, keyed by the id field of each record. -/
abbrev Store := List Subscription

/-- Point lookup in the store. -/
def storeGet (db : Store) (id : Nat) : Option Subscription :=
  db.find? (fun s => s.id == id)

/-- `SubscriptionRepository.GetByID`: `pgx.ErrNoRows` becomes the
distinguished `ErrNotFound`. -/
def repoGetByID (db : Store) (id : Nat) : Except SvcError Subscription :=
  match storeGet db id with
  | some sub => .ok sub
  | none => .error .errNotFound

/-- `SubscriptionRepository.Update`: `UPDATE subscriptions SET
service_name, price, user_id, start_date, end_date WHERE id` - every
column of the row with the matching id is overwritten. -/
def repoUpdate (db : Store) (sub : Subscription) : Store :=
  db.map (fun s => if s.id == sub.id then sub else s)

/-- `SubscriptionRepository.Delete`: `DELETE FROM subscriptions WHERE id`. -/
def repoDelete (db : Store) (id : Nat) : Store :=
  db.filter (fun s => s.id != id)

/-- `SubscriptionService.Update`: a `GetByID` guard, then the repository
update. -/
def serviceUpdate (db : Store) (sub : Subscription) : Except SvcError Store :=
  match repoGetByID db sub.id with
  | .error e => .error e
  | .ok _ => .ok (repoUpdate db sub)

/-- `SubscriptionService.Delete`: a `GetByID` guard first; on any error
the repository delete is not invoked and the error is returned. -/
def serviceDelete (db : Store) (id : Nat) : Except SvcError Store :=
  match repoGetByID db id with
  | .error e => .error e
  | .ok _ => .ok (repoDelete db id)

/-- `model.UpdateSubscriptionRequest`: every field optional. -/
structure UpdateSubscriptionRequest where
  serviceName : Option String
  price : Option Int
  startDate : Option String
  endDate : Option String
deriving DecidableEq

/-- The field merge of `Handler.Update`: each supplied request field
overwrites the fetched record, in source order.  A supplied end date sets
the pointer; a nil one leaves the stored value. -/
def applyUpdateRequest (sub : Subscription) (req : UpdateSubscriptionRequest) :
    Subscription :=
  let sub1 := match req.serviceName with
    | some v => { sub with serviceName := v }
    | none => sub
  let sub2 := match req.price with
    | some v => { sub1 with price := v }
    | none => sub1
  let sub3 := match req.startDate with
    | some v => { sub2 with startDate := v }
    | none => sub2
  match req.endDate with
  | some v => { sub3 with endDate := some v }
  | none => sub3

/-- `Handler.Update` after JSON binding: parse the id (400 on failure,
modelled by the `Option` argument), fetch the record (404 when
`ErrNotFound`, 500 on other errors), merge the supplied fields, call the
service update (500 on error), else 204.  Returns the HTTP status and
the resulting store. -/
def handlerUpdate (db : Store) (idParse : Option Nat)
    (req : UpdateSubscriptionRequest) : Nat × Store :=
  match idParse with
  | none => (400, db)
  | some id =>
    match repoGetByID db id with
    | .error .errNotFound => (404, db)
    | .error _ => (500, db)
    | .ok sub =>
      match serviceUpdate db (applyUpdateRequest sub req) with
      | .error _ => (500, db)
      | .ok db2 => (204, db2)

/-- `Handler.Delete`: parse the id (400 on failure), call the service
delete; any error - including `ErrNotFound` - yields 500 (this handler,
unlike `GetByID` and `Update`, has no `ErrNotFound` branch), else 204. -/
def handlerDelete (db : Store) (idParse : Option Nat) : Nat × Store :=
  match idParse with
  | none => (400, db)
  | some id =>
    match serviceDelete db id with
    | .error _ => (500, db)
    | .ok db2 => (204, db2)

/-! ### Arithmetic facts about the calendar embedding -/

theorem isLeap_iff (y : Int) :
    isLeap y = true ↔ (y % 4 = 0 ∧ (y % 100 ≠ 0 ∨ y % 400 = 0)) := by
  simp [isLeap]

theorem daysInMonth_bounds (y m : Int) :
    28 ≤ daysInMonth y m ∧ daysInMonth y m ≤ 31 := by
  unfold daysInMonth
  split
  · split <;> omega
  · split <;> omega

theorem daysBeforeYear_succ (y : Int) :
    daysBeforeYear (y + 1) = daysBeforeYear y + 365 + (if isLeap y then 1 else 0) := by
  have h := isLeap_iff y
  unfold daysBeforeYear
  split
  · rename_i hl
    have h2 := h.mp hl
    omega
  · rename_i hl
    have h2 : ¬(y % 4 = 0 ∧ (y % 100 ≠ 0 ∨ y % 400 = 0)) := fun hp => hl (h.mpr hp)
    omega

theorem monthStep (y m : Int) (h1 : 1 ≤ m) (h2 : m ≤ 12) :
    daysBeforeYear y + daysBeforeMonth y m + daysInMonth y m =
      (if m = 12 then daysBeforeYear (y + 1) + daysBeforeMonth (y + 1) 1
       else daysBeforeYear y + daysBeforeMonth y (m + 1)) := by
  have hs := daysBeforeYear_succ y
  interval_cases m <;>
    norm_num [daysBeforeMonth, daysInMonth] <;>
    split_ifs at * <;> omega

theorem normMonth_eq_self (y m : Int) (h1 : 1 ≤ m) (h2 : m ≤ 12) :
    normMonth y m = (y, m) := by
  simp only [normMonth, Prod.mk.injEq]
  omega

theorem normMonth_bounds (y m : Int) :
    1 ≤ (normMonth y m).2 ∧ (normMonth y m).2 ≤ 12 := by
  simp only [normMonth]
  omega

theorem normMonth_succ (y m : Int) :
    normMonth y (m + 1) =
      (if (normMonth y m).2 = 12 then ((normMonth y m).1 + 1, 1)
       else ((normMonth y m).1, (normMonth y m).2 + 1)) := by
  simp only [normMonth]
  split <;> simp only [Prod.mk.injEq] <;> constructor <;> omega

theorem daysBeforeMonth_one (y : Int) : daysBeforeMonth y 1 = 0 := by
  norm_num [daysBeforeMonth]

theorem rollGo_spec (n : Nat) : ∀ y m d : Int, 1 ≤ m → m ≤ 12 →
    1 ≤ (rollGo n y m d).2.1 ∧ (rollGo n y m d).2.1 ≤ 12 ∧
    daysBeforeYear (rollGo n y m d).1 +
      daysBeforeMonth (rollGo n y m d).1 (rollGo n y m d).2.1 +
      ((rollGo n y m d).2.2 - 1) =
    daysBeforeYear y + daysBeforeMonth y m + (d - 1) := by
  induction n with
  | zero =>
    intro y m d h1 h2
    exact ⟨h1, h2, rfl⟩
  | succ n ih =>
    intro y m d h1 h2
    rw [rollGo]
    split
    · by_cases hm : m = 1
      · simp only [if_pos hm]
        have hstep := monthStep (y - 1) 12 (by omega) (by omega)
        rw [if_pos rfl, show y - 1 + 1 = y by ring] at hstep
        have hr := ih (y - 1) 12 (d + daysInMonth (y - 1) 12) (by omega) (by omega)
        refine ⟨hr.1, hr.2.1, ?_⟩
        rw [hr.2.2, hm]
        have h0 := daysBeforeMonth_one y
        omega
      · simp only [if_neg hm]
        have hstep := monthStep y (m - 1) (by omega) (by omega)
        rw [if_neg (by omega)] at hstep
        have hr := ih y (m - 1) (d + daysInMonth y (m - 1)) (by omega) (by omega)
        refine ⟨hr.1, hr.2.1, ?_⟩
        rw [hr.2.2]
        have : m - 1 + 1 = m := by omega
        rw [this] at hstep
        omega
    · split
      · by_cases hm : m = 12
        · simp only [if_pos hm]
          have hstep := monthStep y 12 (by omega) (by omega)
          rw [if_pos rfl] at hstep
          have hr := ih (y + 1) 1 (d - daysInMonth y m) (by omega) (by omega)
          refine ⟨hr.1, hr.2.1, ?_⟩
          rw [hr.2.2, hm]
          omega
        · simp only [if_neg hm]
          have hstep := monthStep y m h1 h2
          rw [if_neg hm] at hstep
          have hr := ih y (m + 1) (d - daysInMonth y m) (by omega) (by omega)
          refine ⟨hr.1, hr.2.1, ?_⟩
          rw [hr.2.2]
          omega
      · exact ⟨h1, h2, rfl⟩

theorem toAbsDays_goDate (y m d : Int) (c : Nat) :
    toAbsDays (goDate y m d c) =
      daysBeforeYear (normMonth y m).1 +
        daysBeforeMonth (normMonth y m).1 (normMonth y m).2 + (d - 1) := by
  have hb := normMonth_bounds y m
  have h := rollGo_spec (d.natAbs + 2) (normMonth y m).1 (normMonth y m).2 d hb.1 hb.2
  show toAbsDays ⟨_, _, _, c⟩ = _
  unfold toAbsDays
  simp only
  rw [normMonth_eq_self _ _ h.1 h.2.1]
  exact h.2.2

theorem toAbsDays_addMonth (t : GoTime) :
    toAbsDays (addDate t 0 1 0) =
      toAbsDays t +
        daysInMonth (normMonth t.year t.month).1 (normMonth t.year t.month).2 := by
  unfold addDate
  rw [show t.year + 0 = t.year by ring, show t.day + 0 = t.day by ring]
  rw [toAbsDays_goDate, normMonth_succ]
  have hb := normMonth_bounds t.year t.month
  have hstep := monthStep (normMonth t.year t.month).1 (normMonth t.year t.month).2 hb.1 hb.2
  unfold toAbsDays
  split
  · rename_i h12
    rw [if_pos h12] at hstep
    simp only
    omega
  · rename_i h12
    rw [if_neg h12] at hstep
    simp only
    omega

theorem addDate_clock (t : GoTime) (a b c : Int) : (addDate t a b c).clock = t.clock := rfl

theorem toAbsDays_addMonth_bounds (t : GoTime) :
    toAbsDays t + 28 ≤ toAbsDays (addDate t 0 1 0) ∧
      toAbsDays (addDate t 0 1 0) ≤ toAbsDays t + 31 := by
  rw [toAbsDays_addMonth]
  have := daysInMonth_bounds (normMonth t.year t.month).1 (normMonth t.year t.month).2
  omega

theorem before_iff (t s : GoTime) :
    before t s = true ↔
      (toAbsDays t < toAbsDays s ∨ (toAbsDays t = toAbsDays s ∧ t.clock < s.clock)) := by
  simp [before]

/-! ### The fueled loops equal the unbounded loops -/

theorem before_days_le (d stop : GoTime) (h : before d stop = true) :
    toAbsDays d ≤ toAbsDays stop := by
  rw [before_iff] at h
  omega

theorem loopFuel_lt (d stop : GoTime) (h : before d stop = true) :
    loopFuel (addDate d 0 1 0) stop < loopFuel d stop := by
  have h1 := before_days_le d stop h
  have h2 := toAbsDays_addMonth_bounds d
  unfold loopFuel
  omega

theorem loopFuel_pos (d stop : GoTime) (h : before d stop = true) :
    1 ≤ loopFuel d stop := by
  have := before_days_le d stop h
  unfold loopFuel
  omega

theorem before_false_of_fuel_zero (d stop : GoTime) (h : loopFuel d stop = 0) :
    before d stop = false := by
  rw [← Bool.not_eq_true, before_iff]
  unfold loopFuel at h
  omega

theorem monthsCountGo_fuel (stop : GoTime) :
    ∀ n1 n2 d, loopFuel d stop ≤ n1 → loopFuel d stop ≤ n2 →
      monthsCountGo stop n1 d = monthsCountGo stop n2 d := by
  intro n1
  induction n1 with
  | zero =>
    intro n2 d hf1 hf2
    have hb := before_false_of_fuel_zero d stop (by omega)
    cases n2 with
    | zero => rfl
    | succ j => simp [monthsCountGo, hb]
  | succ k ih =>
    intro n2 d hf1 hf2
    cases n2 with
    | zero =>
      have hb := before_false_of_fuel_zero d stop (by omega)
      simp [monthsCountGo, hb]
    | succ j =>
      cases hb : before d stop with
      | false => simp [monthsCountGo, hb]
      | true =>
        have hlt := loopFuel_lt d stop hb
        simp only [monthsCountGo, hb, if_true]
        rw [ih j (addDate d 0 1 0) (by omega) (by omega)]

theorem monthsCount_rec (d stop : GoTime) :
    monthsCount d stop =
      if before d stop then monthsCount (addDate d 0 1 0) stop + 1 else 0 := by
  unfold monthsCount
  cases hb : before d stop with
  | false =>
    cases hf : loopFuel d stop with
    | zero => simp [monthsCountGo]
    | succ j => simp [monthsCountGo, hb]
  | true =>
    have hpos := loopFuel_pos d stop hb
    obtain ⟨j, hj⟩ : ∃ j, loopFuel d stop = j + 1 := ⟨loopFuel d stop - 1, by omega⟩
    rw [hj]
    simp only [monthsCountGo, hb, if_true]
    have hlt := loopFuel_lt d stop hb
    rw [monthsCountGo_fuel stop j (loopFuel (addDate d 0 1 0) stop) (addDate d 0 1 0)
      (by omega) (le_refl _)]

theorem accGo_fuel (stop : GoTime) (p : Int) :
    ∀ n1 n2 d acc, loopFuel d stop ≤ n1 → loopFuel d stop ≤ n2 →
      accGo stop p n1 d acc = accGo stop p n2 d acc := by
  intro n1
  induction n1 with
  | zero =>
    intro n2 d acc hf1 hf2
    have hb := before_false_of_fuel_zero d stop (by omega)
    cases n2 with
    | zero => rfl
    | succ j => simp [accGo, hb]
  | succ k ih =>
    intro n2 d acc hf1 hf2
    cases n2 with
    | zero =>
      have hb := before_false_of_fuel_zero d stop (by omega)
      simp [accGo, hb]
    | succ j =>
      cases hb : before d stop with
      | false => simp [accGo, hb]
      | true =>
        have hlt := loopFuel_lt d stop hb
        simp only [accGo, hb, if_true]
        rw [ih j (addDate d 0 1 0) (bump (d.month, d.year) p acc) (by omega) (by omega)]

theorem accumulateMonths_rec (d stop : GoTime) (p : Int) (acc : CostMap) :
    accumulateMonths d stop p acc =
      if before d stop then
        accumulateMonths (addDate d 0 1 0) stop p (bump (d.month, d.year) p acc)
      else acc := by
  unfold accumulateMonths
  cases hb : before d stop with
  | false =>
    cases hf : loopFuel d stop with
    | zero => simp [accGo]
    | succ j => simp [accGo, hb]
  | true =>
    have hpos := loopFuel_pos d stop hb
    obtain ⟨j, hj⟩ : ∃ j, loopFuel d stop = j + 1 := ⟨loopFuel d stop - 1, by omega⟩
    rw [hj]
    simp only [accGo, hb, if_true]
    have hlt := loopFuel_lt d stop hb
    rw [accGo_fuel stop p j (loopFuel (addDate d 0 1 0) stop) (addDate d 0 1 0) _
      (by omega) (le_refl _)]

/-! ### The scalar total of the accumulator map -/

theorem bump_total (key : Int × Int) (p : Int) (acc : CostMap) :
    mapTotal (bump key p acc) = mapTotal acc + p := by
  induction acc with
  | nil => simp [bump, mapTotal]
  | cons kv rest ih =>
    obtain ⟨k, v⟩ := kv
    by_cases h : k = key
    · simp only [bump, if_pos h, mapTotal, List.map_cons, List.sum_cons]
      simp [mapTotal] at *
      ring
    · simp only [bump, if_neg h, mapTotal, List.map_cons, List.sum_cons]
      simp [mapTotal] at ih
      omega

theorem accumulate_total_aux (stop : GoTime) (p : Int) :
    ∀ n d acc, loopFuel d stop ≤ n →
      mapTotal (accumulateMonths d stop p acc) =
        mapTotal acc + p * (monthsCount d stop : Int) := by
  intro n
  induction n with
  | zero =>
    intro d acc hf
    have hb := before_false_of_fuel_zero d stop (by omega)
    rw [accumulateMonths_rec, monthsCount_rec, hb]
    simp
  | succ k ih =>
    intro d acc hf
    rw [accumulateMonths_rec, monthsCount_rec]
    cases hb : before d stop with
    | false => simp
    | true =>
      have hlt := loopFuel_lt d stop hb
      simp only [if_true]
      rw [ih (addDate d 0 1 0) (bump (d.month, d.year) p acc) (by omega), bump_total]
      push_cast
      ring

theorem accumulateMonths_total (d stop : GoTime) (p : Int) (acc : CostMap) :
    mapTotal (accumulateMonths d stop p acc) =
      mapTotal acc + p * (monthsCount d stop : Int) :=
  accumulate_total_aux stop p (loopFuel d stop) d acc (le_refl _)

theorem processSubs_total (now : GoTime) :
    ∀ subs acc, mapTotal (processSubs now subs acc) =
      mapTotal acc + (subs.map (subCost now)).sum := by
  intro subs
  induction subs with
  | nil => intro acc; simp [processSubs]
  | cons sub rest ih =>
    intro acc
    rw [List.map_cons, List.sum_cons]
    cases hp : parseDate sub.startDate with
    | none =>
      simp only [processSubs, hp, subCost]
      rw [ih]
      ring
    | some start =>
      cases he : sub.endDate with
      | none =>
        simp only [processSubs, hp, he, subCost]
        rw [ih, accumulateMonths_total]
        ring
      | some es =>
        cases hpe : parseDate es with
        | none =>
          simp only [processSubs, hp, he, hpe, subCost]
          rw [ih]
          ring
        | some e =>
          simp only [processSubs, hp, he, hpe, subCost]
          rw [ih, accumulateMonths_total]
          ring

theorem getTotalCost_ok (now : GoTime) (subs : List Subscription) :
    getTotalCost now (.ok subs) = ((subs.map (subCost now)).sum, none) := by
  show (mapTotal (processSubs now subs []), none) = _
  rw [processSubs_total]
  simp [mapTotal]

/-! ### Month-aligned dates and properties of the month count -/

theorem toAbsDays_monthFirst (n : Int) :
    toAbsDays (monthFirst n) =
      daysBeforeYear (n / 12) + daysBeforeMonth (n / 12) (n % 12 + 1) := by
  show daysBeforeYear (normMonth (n / 12) (n % 12 + 1)).1 +
      daysBeforeMonth (normMonth (n / 12) (n % 12 + 1)).1 (normMonth (n / 12) (n % 12 + 1)).2 +
      ((1 : Int) - 1) = _
  rw [normMonth_eq_self _ _ (by omega) (by omega)]
  ring

theorem toAbsDays_monthFirst_succ (n : Int) :
    toAbsDays (monthFirst (n + 1)) =
      toAbsDays (monthFirst n) + daysInMonth (n / 12) (n % 12 + 1) := by
  rw [toAbsDays_monthFirst, toAbsDays_monthFirst]
  have hstep := monthStep (n / 12) (n % 12 + 1) (by omega) (by omega)
  by_cases h : n % 12 + 1 = 12
  · rw [if_pos h] at hstep
    have h1 : (n + 1) / 12 = n / 12 + 1 := by omega
    have h2 : (n + 1) % 12 = 0 := by omega
    rw [h1, h2]
    norm_num
    omega
  · rw [if_neg h] at hstep
    have h1 : (n + 1) / 12 = n / 12 := by omega
    have h2 : (n + 1) % 12 = n % 12 + 1 := by omega
    rw [h1, h2]
    omega

theorem toAbsDays_monthFirst_add (a : Int) (k : Nat) :
    toAbsDays (monthFirst a) + 28 * (k : Int) ≤ toAbsDays (monthFirst (a + (k : Int))) := by
  induction k with
  | zero => simp
  | succ j ih =>
    have hs := toAbsDays_monthFirst_succ (a + (j : Int))
    have hd := daysInMonth_bounds ((a + (j : Int)) / 12) ((a + (j : Int)) % 12 + 1)
    have he : a + ((j + 1 : Nat) : Int) = (a + (j : Int)) + 1 := by push_cast; ring
    rw [he, hs]
    push_cast
    push_cast at ih
    omega

theorem monthFirst_clock (n : Int) : (monthFirst n).clock = 0 := rfl

theorem before_monthFirst_iff (a b : Int) :
    before (monthFirst a) (monthFirst b) = true ↔ a < b := by
  rw [before_iff]
  have hca := monthFirst_clock a
  have hcb := monthFirst_clock b
  constructor
  · intro h
    by_contra hab
    push_neg at hab
    have hm := toAbsDays_monthFirst_add b (a - b).toNat
    have hba : b + (((a - b).toNat : Nat) : Int) = a := by omega
    rw [hba] at hm
    omega
  · intro h
    left
    have hm := toAbsDays_monthFirst_add a (b - a).toNat
    have hba : a + (((b - a).toNat : Nat) : Int) = b := by omega
    rw [hba] at hm
    omega

theorem rollGo_idem (n : Nat) (y m d : Int) (h1 : 1 ≤ d) (h2 : d ≤ daysInMonth y m) :
    rollGo (n + 1) y m d = (y, m, d) := by
  rw [rollGo, if_neg (by omega), if_neg (by omega)]

theorem addMonth_monthFirst (n : Int) :
    addDate (monthFirst n) 0 1 0 = monthFirst (n + 1) := by
  have hnm : normMonth (n / 12 + 0) (n % 12 + 1 + 1) = ((n + 1) / 12, (n + 1) % 12 + 1) := by
    simp only [normMonth, Prod.mk.injEq]
    constructor <;> omega
  have hdim := daysInMonth_bounds ((n + 1) / 12) ((n + 1) % 12 + 1)
  show goDate ((monthFirst n).year + 0) ((monthFirst n).month + 1)
      ((monthFirst n).day + 0) (monthFirst n).clock = monthFirst (n + 1)
  simp only [monthFirst]
  unfold goDate
  rw [hnm]
  simp only
  rw [show (1 : Int) + 0 = 1 by ring, show Int.natAbs 1 + 2 = 2 + 1 from rfl,
    rollGo_idem _ _ _ _ (by omega) (by omega)]

theorem monthsCount_monthFirst (k : Nat) : ∀ n : Int,
    monthsCount (monthFirst n) (monthFirst (n + (k : Int))) = k := by
  induction k with
  | zero =>
    intro n
    rw [show n + ((0 : Nat) : Int) = n by push_cast; ring]
    rw [monthsCount_rec]
    have hb : before (monthFirst n) (monthFirst n) = false := by
      rw [← Bool.not_eq_true, before_monthFirst_iff]
      omega
    simp [hb]
  | succ j ih =>
    intro n
    rw [monthsCount_rec]
    have hb : before (monthFirst n) (monthFirst (n + ((j + 1 : Nat) : Int))) = true := by
      rw [before_monthFirst_iff]
      push_cast
      omega
    rw [hb]
    simp only [if_true]
    rw [addMonth_monthFirst,
      show n + ((j + 1 : Nat) : Int) = (n + 1) + ((j : Nat) : Int) by push_cast; ring,
      ih (n + 1)]

theorem before_of_before_of_not (d s1 s2 : GoTime) (h1 : before d s1 = true)
    (h2 : before s2 s1 = false) : before d s2 = true := by
  rw [before_iff] at h1 ⊢
  have h2' : ¬(toAbsDays s2 < toAbsDays s1 ∨
      (toAbsDays s2 = toAbsDays s1 ∧ s2.clock < s1.clock)) := by
    rw [← before_iff]
    simp [h2]
  omega

theorem monthsCount_mono_aux (stop1 stop2 : GoTime) (hle : before stop2 stop1 = false) :
    ∀ n d, loopFuel d stop2 ≤ n → monthsCount d stop1 ≤ monthsCount d stop2 := by
  intro n
  induction n with
  | zero =>
    intro d hf
    have hb2 := before_false_of_fuel_zero d stop2 (by omega)
    rw [monthsCount_rec d stop1]
    cases hb1 : before d stop1 with
    | true =>
      have := before_of_before_of_not d stop1 stop2 hb1 hle
      rw [this] at hb2
      cases hb2
    | false => simp
  | succ k ih =>
    intro d hf
    rw [monthsCount_rec d stop1, monthsCount_rec d stop2]
    cases hb1 : before d stop1 with
    | true =>
      have hb2 := before_of_before_of_not d stop1 stop2 hb1 hle
      rw [hb2]
      simp only [if_true]
      have hlt := loopFuel_lt d stop2 hb2
      exact Nat.succ_le_succ (ih (addDate d 0 1 0) (by omega))
    | false =>
      rw [if_neg (by simp [hb1])]
      exact Nat.zero_le _

theorem monthsCount_mono (stop1 stop2 : GoTime) (d : GoTime)
    (hle : before stop2 stop1 = false) :
    monthsCount d stop1 ≤ monthsCount d stop2 :=
  monthsCount_mono_aux stop1 stop2 hle (loopFuel d stop2) d (le_refl _)

theorem iterMonths_clock (k : Nat) : ∀ d : GoTime, (iterMonths k d).clock = d.clock := by
  induction k with
  | zero => intro d; rfl
  | succ j ih =>
    intro d
    show (iterMonths j (addDate d 0 1 0)).clock = d.clock
    rw [ih (addDate d 0 1 0), addDate_clock]

theorem iterMonths_days (k : Nat) :
    ∀ d : GoTime, toAbsDays d + 28 * (k : Int) ≤ toAbsDays (iterMonths k d) := by
  induction k with
  | zero => intro d; simp [iterMonths]
  | succ j ih =>
    intro d
    have hs := toAbsDays_addMonth_bounds d
    have hi := ih (addDate d 0 1 0)
    show toAbsDays d + 28 * ((j + 1 : Nat) : Int) ≤ toAbsDays (iterMonths j (addDate d 0 1 0))
    push_cast
    push_cast at hi
    omega

theorem monthsCount_lt_iff (stop : GoTime) :
    ∀ (k : Nat) (d : GoTime),
      k < monthsCount d stop ↔ before (iterMonths k d) stop = true := by
  intro k
  induction k with
  | zero =>
    intro d
    rw [monthsCount_rec]
    cases hb : before d stop with
    | true => simp [hb, iterMonths]
    | false => simp [hb, iterMonths]
  | succ j ih =>
    intro d
    rw [monthsCount_rec]
    cases hb : before d stop with
    | true =>
      simp only [hb, if_true]
      rw [show iterMonths (j + 1) d = iterMonths j (addDate d 0 1 0) from rfl]
      constructor
      · intro h
        exact (ih (addDate d 0 1 0)).mp (by omega)
      · intro h
        have := (ih (addDate d 0 1 0)).mpr h
        omega
    | false =>
      rw [if_neg (by simp [hb])]
      constructor
      · omega
      · intro h
        exfalso
        have hd := iterMonths_days (j + 1) d
        have hc := iterMonths_clock (j + 1) d
        rw [before_iff] at h
        have hb' : ¬(toAbsDays d < toAbsDays stop ∨
            (toAbsDays d = toAbsDays stop ∧ d.clock < stop.clock)) := by
          rw [← before_iff]
          simp [hb]
        push_cast at hd
        omega

theorem parseDate_some (s : String) (t : GoTime) (h : parseDate s = some t) :
    1 ≤ t.month ∧ t.month ≤ 12 ∧ 1 ≤ t.day ∧
      t.day ≤ daysInMonth t.year t.month ∧ t.clock = 0 := by
  unfold parseDate at h
  cases hr : readDigits s.toList with
  | none =>
    rw [hr] at h
    exact absurd h (by simp)
  | some ymd =>
    obtain ⟨y, m, d⟩ := ymd
    rw [hr] at h
    simp only at h
    unfold mkParsedDate at h
    split at h
    · rename_i hcond
      simp only [Option.some.injEq] at h
      subst h
      exact ⟨hcond.1, hcond.2.1, hcond.2.2.1, hcond.2.2.2, rfl⟩
    · exact absurd h (by simp)

theorem mk_eq_monthFirst (y m : Int) (h1 : 1 ≤ m) (h2 : m ≤ 12) :
    (⟨y, m, 1, 0⟩ : GoTime) = monthFirst (12 * y + m - 1) := by
  simp only [monthFirst, GoTime.mk.injEq]
  refine ⟨?_, ?_, trivial, trivial⟩ <;> omega

/-! ### Claim theorems -/

theorem getTotalCost_single (now : GoTime) (sub : Subscription) :
    getTotalCost now (.ok [sub]) = (subCost now sub, none) := by
  rw [getTotalCost_ok]
  simp

/-- C5: when the underlying filtered fetch fails with an error, GetTotalCost
fails with that same error propagated unchanged and returns a zero total;
no partial aggregation result is produced. -/
theorem c5_fetch_error_propagated (now : GoTime) (e : SvcError) :
    getTotalCost now (Except.error e) = (0, some e) := rfl

/-- C1 counterexample: on the fetched set holding exactly the subscription
(Netflix, price 500, start 2023-01-01, end 2023-03-01) - the month-aligned
representation of the window 2023-01 to 2023-03 - GetTotalCost does not
return 1500 (it returns 1000, because the loop stops strictly before the
end instant and March is not charged). -/
theorem c1_counterexample :
    (getTotalCost ⟨2013, 6, 1, 0⟩
        (Except.ok [⟨1, "Netflix", 500, 7, "2023-01-01", some "2023-03-01"⟩])).1 ≠ 1500 := by
  decide

/-- C1 amended: for the single fetched subscription (Netflix, 500,
start 2023-01-01), GetTotalCost returns 500 x 2 = 1000 when the stored end
date is 2023-03-01 (the end month is exclusive), and returns 500 x 3 = 1500
only when the stored end date falls after the first instant of March,
for example 2023-03-31. -/
theorem c1_amended (now : GoTime) :
    getTotalCost now
        (Except.ok [⟨1, "Netflix", 500, 7, "2023-01-01", some "2023-03-01"⟩]) = (1000, none) ∧
    getTotalCost now
        (Except.ok [⟨1, "Netflix", 500, 7, "2023-01-01", some "2023-03-31"⟩]) = (1500, none) := by
  have h1 : parseDate "2023-01-01" = some ⟨2023, 1, 1, 0⟩ := by decide
  have h2 : parseDate "2023-03-01" = some ⟨2023, 3, 1, 0⟩ := by decide
  have h3 : parseDate "2023-03-31" = some ⟨2023, 3, 31, 0⟩ := by decide
  have h4 : monthsCount ⟨2023, 1, 1, 0⟩ ⟨2023, 3, 1, 0⟩ = 2 := by decide
  have h5 : monthsCount ⟨2023, 1, 1, 0⟩ ⟨2023, 3, 31, 0⟩ = 3 := by decide
  constructor
  · rw [getTotalCost_single]
    simp [subCost, h1, h2, h4]
  · rw [getTotalCost_single]
    simp [subCost, h1, h3, h5]

/-- C2: for a single fetched subscription whose start and end dates both
parse as YYYY-MM-DD, fall on the first day of a month, and satisfy
start before end, GetTotalCost returns price times the number of calendar
months from the start month inclusive to the end month exclusive. -/
theorem c2_single_month_aligned (now : GoTime) (sub : Subscription)
    (y1 m1 y2 m2 : Int) (es : String)
    (hs : parseDate sub.startDate = some ⟨y1, m1, 1, 0⟩)
    (he : sub.endDate = some es)
    (hpe : parseDate es = some ⟨y2, m2, 1, 0⟩)
    (hlt : 12 * y1 + m1 < 12 * y2 + m2) :
    getTotalCost now (Except.ok [sub]) =
      (sub.price * (12 * y2 + m2 - (12 * y1 + m1)), none) := by
  have hb1 := parseDate_some _ _ hs
  have hb2 := parseDate_some _ _ hpe
  rw [getTotalCost_single]
  simp only [subCost, hs, he, hpe]
  rw [mk_eq_monthFirst y1 m1 hb1.1 hb1.2.1, mk_eq_monthFirst y2 m2 hb2.1 hb2.2.1]
  have hk : 12 * y2 + m2 - 1 =
      (12 * y1 + m1 - 1) + (((12 * y2 + m2 - (12 * y1 + m1)).toNat : Nat) : Int) := by
    omega
  rw [hk, monthsCount_monthFirst]
  rw [Int.toNat_of_nonneg (by omega)]

/-- C2 witness: the single subscription (Netflix, 500, 2023-01-01 to
2023-03-01) totals 500 x 2 = 1000. -/
theorem c2_witness :
    getTotalCost ⟨2013, 6, 1, 0⟩
        (Except.ok [⟨1, "Netflix", 500, 7, "2023-01-01", some "2023-03-01"⟩]) = (1000, none) := by
  have h := c2_single_month_aligned ⟨2013, 6, 1, 0⟩
    ⟨1, "Netflix", 500, 7, "2023-01-01", some "2023-03-01"⟩
    2023 1 2023 3 "2023-03-01" (by decide) rfl (by decide) (by decide)
  simpa using h

/-- C3: a subscription with a parseable start date and an absent end date
contributes its price once per calendar month walked from the start date
while strictly before the instant ten years after the current time
(Go AddDate(10,0,0) applied to now); the month count is exactly the set of
iterates of the one-month step that lie strictly before that ceiling, a
finite bound rather than an infinite sum. -/
theorem c3_open_ended_ceiling (now : GoTime) (sub : Subscription) (start : GoTime)
    (hs : parseDate sub.startDate = some start)
    (he : sub.endDate = none) :
    getTotalCost now (Except.ok [sub]) =
      (sub.price * (monthsCount start (addDate now 10 0 0) : Int), none) ∧
    ∀ k : Nat, k < monthsCount start (addDate now 10 0 0) ↔
      before (iterMonths k start) (addDate now 10 0 0) = true := by
  constructor
  · rw [getTotalCost_single]
    simp only [subCost, hs, he]
  · intro k
    exact monthsCount_lt_iff (addDate now 10 0 0) k start

/-- C3 witness: with current time 2013-06-01 the ceiling is 2023-06-01, so
an open-ended subscription priced 300 starting 2023-01-01 is charged for
five months: 1500. -/
theorem c3_witness :
    getTotalCost ⟨2013, 6, 1, 0⟩
        (Except.ok [⟨1, "Spotify", 300, 7, "2023-01-01", none⟩]) = (1500, none) := by
  have h := (c3_open_ended_ceiling ⟨2013, 6, 1, 0⟩
    ⟨1, "Spotify", 300, 7, "2023-01-01", none⟩ ⟨2023, 1, 1, 0⟩ (by decide) rfl).1
  rw [h]
  decide

/-- C4: a fetched record whose start date (or present end date) does not
parse as YYYY-MM-DD contributes zero and does not abort the computation:
GetTotalCost still succeeds and returns exactly the total of the list with
that record removed. -/
theorem c4_unparsable_skipped (now : GoTime) (pre post : List Subscription)
    (sub : Subscription)
    (hbad : parseDate sub.startDate = none ∨
      ∃ es, sub.endDate = some es ∧ parseDate es = none) :
    getTotalCost now (Except.ok (pre ++ sub :: post)) =
      getTotalCost now (Except.ok (pre ++ post)) := by
  rw [getTotalCost_ok, getTotalCost_ok]
  have hz : subCost now sub = 0 := by
    rcases hbad with h | ⟨es, he, hpe⟩
    · simp [subCost, h]
    · cases hp : parseDate sub.startDate with
      | none => simp [subCost, hp]
      | some start => simp [subCost, hp, he, hpe]
  simp [hz]

/-- C4 witness: a record with start date "not-a-date" is skipped and the
two-record list totals exactly what the remaining record alone totals. -/
theorem c4_witness :
    getTotalCost ⟨2013, 6, 1, 0⟩ (Except.ok
        [⟨1, "Bad", 999, 7, "not-a-date", some "2023-02-01"⟩,
         ⟨2, "Good", 300, 7, "2023-01-01", some "2023-02-01"⟩]) =
      getTotalCost ⟨2013, 6, 1, 0⟩
        (Except.ok [⟨2, "Good", 300, 7, "2023-01-01", some "2023-02-01"⟩]) :=
  c4_unparsable_skipped ⟨2013, 6, 1, 0⟩ []
    [⟨2, "Good", 300, 7, "2023-01-01", some "2023-02-01"⟩]
    ⟨1, "Bad", 999, 7, "not-a-date", some "2023-02-01"⟩ (Or.inl (by decide))

/-- C6: with both date filters supplied, a row matches the fetch predicate
iff its user matches, the optional service name matches, its own start_date
is at least the start filter (inclusive lower bound on the row), and its
end_date is absent (NULL) or at most the end filter - the deliberately
asymmetric pair of date criteria. -/
theorem c6_filter_asymmetry (uid : Nat) (sn : String) (sf ef : SqlDate)
    (row : SubscriptionRow) :
    rowMatches uid sn (some sf) (some ef) row = true ↔
      (row.userID = uid ∧ (sn = "" ∨ row.serviceName = sn) ∧
        sqlDateLe sf row.startDate = true ∧
        (row.endDate = none ∨ ∃ e, row.endDate = some e ∧ sqlDateLe e ef = true)) := by
  cases hre : row.endDate with
  | none =>
    simp [rowMatches, hre]
    tauto
  | some e =>
    simp [rowMatches, hre]
    tauto

/-- C7 counterexample: a fetched list may carry a negative price (the table
has no CHECK constraint and the update request misplaces its gte=0 tag
inside the json tag), and then GetTotalCost succeeds with a negative
output: the record (price -5, 2023-01-01 to 2023-02-01) totals -5. -/
theorem c7_counterexample :
    (getTotalCost ⟨2013, 6, 1, 0⟩
        (Except.ok [⟨1, "Neg", -5, 7, "2023-01-01", some "2023-02-01"⟩])).1 < 0 := by
  decide

/-- C7 amended: for every fetched list in which every record has a
non-negative price, a successful GetTotalCost returns a non-negative
integer. -/
theorem c7_nonneg (now : GoTime) (subs : List Subscription)
    (hp : ∀ sub ∈ subs, 0 ≤ sub.price) :
    0 ≤ (getTotalCost now (Except.ok subs)).1 := by
  rw [getTotalCost_ok]
  apply List.sum_nonneg
  intro x hx
  simp only [List.mem_map] at hx
  obtain ⟨sub, hmem, rfl⟩ := hx
  have hps := hp sub hmem
  cases hps1 : parseDate sub.startDate with
  | none => simp [subCost, hps1]
  | some start =>
    cases he : sub.endDate with
    | none =>
      simp only [subCost, hps1, he]
      exact mul_nonneg hps (Int.natCast_nonneg _)
    | some es =>
      cases hpe : parseDate es with
      | none => simp [subCost, hps1, he, hpe]
      | some e =>
        simp only [subCost, hps1, he, hpe]
        exact mul_nonneg hps (Int.natCast_nonneg _)

/-- C7 witness: a list of records with non-negative prices yields a
non-negative total. -/
theorem c7_witness :
    0 ≤ (getTotalCost ⟨2013, 6, 1, 0⟩
        (Except.ok [⟨1, "Netflix", 500, 7, "2023-01-01", some "2023-03-01"⟩])).1 :=
  c7_nonneg ⟨2013, 6, 1, 0⟩ [⟨1, "Netflix", 500, 7, "2023-01-01", some "2023-03-01"⟩]
    (by decide)

/-- C8 counterexample: with price 0 an open-ended subscription does not
contribute strictly more than a closed one with the same start date and
price - both contribute 0. -/
theorem c8_counterexample :
    ¬ ((getTotalCost ⟨2013, 6, 1, 0⟩
          (Except.ok [⟨1, "X", 0, 7, "2023-01-01", none⟩])).1 >
       (getTotalCost ⟨2013, 6, 1, 0⟩
          (Except.ok [⟨2, "X", 0, 7, "2023-01-01", some "2023-02-01"⟩])).1) := by
  decide

/-- C8 amended: for a month-aligned start date and a month-aligned present
end date with start month at or before end month, a positive price, and a
now-plus-ten-years ceiling not before the first day of the month after the
end date, the open-ended subscription contributes strictly more than the
closed one sharing start date and price. -/
theorem c8_open_ended_dominates (now : GoTime) (y1 m1 y2 m2 price : Int)
    (startStr es : String)
    (hs : parseDate startStr = some ⟨y1, m1, 1, 0⟩)
    (hpe : parseDate es = some ⟨y2, m2, 1, 0⟩)
    (hse : 12 * y1 + m1 ≤ 12 * y2 + m2)
    (hceil : before (addDate now 10 0 0) (monthFirst (12 * y2 + m2)) = false)
    (hprice : 0 < price)
    (idO uO idC uC : Nat) (snO snC : String) :
    (getTotalCost now (Except.ok [⟨idO, snO, price, uO, startStr, none⟩])).1 >
      (getTotalCost now (Except.ok [⟨idC, snC, price, uC, startStr, some es⟩])).1 := by
  have hb1 := parseDate_some _ _ hs
  have hb2 := parseDate_some _ _ hpe
  rw [getTotalCost_single, getTotalCost_single]
  simp only [subCost, hs, hpe]
  rw [mk_eq_monthFirst y1 m1 hb1.1 hb1.2.1, mk_eq_monthFirst y2 m2 hb2.1 hb2.2.1]
  have hc : monthsCount (monthFirst (12 * y1 + m1 - 1)) (monthFirst (12 * y2 + m2 - 1)) =
      (12 * y2 + m2 - 1 - (12 * y1 + m1 - 1)).toNat := by
    have hmm := monthsCount_monthFirst ((12 * y2 + m2 - 1 - (12 * y1 + m1 - 1)).toNat)
      (12 * y1 + m1 - 1)
    rw [show 12 * y1 + m1 - 1 +
        (((12 * y2 + m2 - 1 - (12 * y1 + m1 - 1)).toNat : Nat) : Int) =
        12 * y2 + m2 - 1 by omega] at hmm
    exact hmm
  have ho : monthsCount (monthFirst (12 * y1 + m1 - 1)) (monthFirst (12 * y2 + m2)) =
      (12 * y2 + m2 - (12 * y1 + m1 - 1)).toNat := by
    have hmm := monthsCount_monthFirst ((12 * y2 + m2 - (12 * y1 + m1 - 1)).toNat)
      (12 * y1 + m1 - 1)
    rw [show 12 * y1 + m1 - 1 +
        (((12 * y2 + m2 - (12 * y1 + m1 - 1)).toNat : Nat) : Int) =
        12 * y2 + m2 by omega] at hmm
    exact hmm
  have hm : monthsCount (monthFirst (12 * y1 + m1 - 1)) (monthFirst (12 * y2 + m2)) ≤
      monthsCount (monthFirst (12 * y1 + m1 - 1)) (addDate now 10 0 0) :=
    monthsCount_mono _ _ _ hceil
  rw [hc]
  have hlt : ((12 * y2 + m2 - 1 - (12 * y1 + m1 - 1)).toNat : Int) <
      (monthsCount (monthFirst (12 * y1 + m1 - 1)) (addDate now 10 0 0) : Int) := by
    rw [ho] at hm
    omega
  exact mul_lt_mul_of_pos_left hlt hprice

/-- C8 witness: price 500, start 2023-01-01, closed end 2023-02-01, current
time 2013-06-01 (ceiling 2023-06-01): the open-ended subscription
contributes 2500, the closed one 500. -/
theorem c8_witness :
    (getTotalCost ⟨2013, 6, 1, 0⟩
        (Except.ok [⟨1, "X", 500, 7, "2023-01-01", none⟩])).1 >
      (getTotalCost ⟨2013, 6, 1, 0⟩
        (Except.ok [⟨2, "X", 500, 7, "2023-01-01", some "2023-02-01"⟩])).1 :=
  c8_open_ended_dominates ⟨2013, 6, 1, 0⟩ 2023 1 2023 2 500 "2023-01-01" "2023-02-01"
    (by decide) (by decide) (by decide) (by decide) (by decide) 1 7 2 7 "X" "X"

/-! ### Store lemmas for update and delete -/

theorem storeGet_id (db : Store) (id : Nat) (sub : Subscription)
    (h : storeGet db id = some sub) : sub.id = id := by
  unfold storeGet at h
  have := List.find?_some h
  simpa using this

theorem applyUpdateRequest_id (sub : Subscription) (req : UpdateSubscriptionRequest) :
    (applyUpdateRequest sub req).id = sub.id := by
  rcases req with ⟨a, b, c, d⟩
  cases a <;> cases b <;> cases c <;> cases d <;> rfl

theorem storeGet_repoUpdate (db : Store) (id : Nat) (sub2 : Subscription)
    (hid : sub2.id = id) (hfound : (storeGet db id).isSome = true) :
    storeGet (repoUpdate db sub2) id = some sub2 := by
  induction db with
  | nil => simp [storeGet] at hfound
  | cons s rest ih =>
    by_cases hs : s.id = id
    · unfold repoUpdate storeGet
      simp only [List.map_cons]
      rw [List.find?_cons_of_pos]
      · simp [hs, hid]
      · simp [hs, hid]
    · unfold repoUpdate storeGet
      simp only [List.map_cons]
      rw [List.find?_cons_of_neg]
      · have hh : (storeGet rest id).isSome = true := by
          unfold storeGet at hfound
          rw [List.find?_cons_of_neg] at hfound
          · exact hfound
          · simp [hs]
        exact ih hh
      · simp [hs, hid]

theorem handlerUpdate_found (db : Store) (id : Nat) (sub : Subscription)
    (req : UpdateSubscriptionRequest) (h : storeGet db id = some sub) :
    handlerUpdate db (some id) req = (204, repoUpdate db (applyUpdateRequest sub req)) := by
  have hid := storeGet_id db id sub h
  have hrepo : repoGetByID db id = Except.ok sub := by
    unfold repoGetByID
    rw [h]
  have hida : (applyUpdateRequest sub req).id = id := by
    rw [applyUpdateRequest_id]
    exact hid
  have hrepo2 : repoGetByID db (applyUpdateRequest sub req).id = Except.ok sub := by
    rw [hida]
    exact hrepo
  simp only [handlerUpdate, hrepo, serviceUpdate, hrepo2]

/-- C9: when an update request supplies only the price field, the full
update flow (fetch the record, merge the supplied fields, write every
column back) answers 204 and the stored record keeps its id, service name,
user id, start date and end date, with only the price overwritten. -/
theorem c9_price_only_update (db : Store) (id : Nat) (sub : Subscription) (p : Int)
    (h : storeGet db id = some sub) :
    (handlerUpdate db (some id) ⟨none, some p, none, none⟩).1 = 204 ∧
    storeGet (handlerUpdate db (some id) ⟨none, some p, none, none⟩).2 id =
      some ⟨sub.id, sub.serviceName, p, sub.userID, sub.startDate, sub.endDate⟩ := by
  have hid := storeGet_id db id sub h
  rw [handlerUpdate_found db id sub _ h]
  refine ⟨rfl, ?_⟩
  have happ : applyUpdateRequest sub ⟨none, some p, none, none⟩ =
      ⟨sub.id, sub.serviceName, p, sub.userID, sub.startDate, sub.endDate⟩ := rfl
  rw [happ]
  exact storeGet_repoUpdate db id _ hid (by rw [h]; rfl)

/-- C9 witness: updating record 1 with a price-only request stores the
same record with just the price changed, answering 204. -/
theorem c9_witness :
    (handlerUpdate [⟨1, "Netflix", 500, 7, "2023-01-01", none⟩] (some 1)
        ⟨none, some 900, none, none⟩).1 = 204 ∧
    storeGet (handlerUpdate [⟨1, "Netflix", 500, 7, "2023-01-01", none⟩] (some 1)
        ⟨none, some 900, none, none⟩).2 1 =
      some ⟨1, "Netflix", 900, 7, "2023-01-01", none⟩ :=
  c9_price_only_update [⟨1, "Netflix", 500, 7, "2023-01-01", none⟩] 1
    ⟨1, "Netflix", 500, 7, "2023-01-01", none⟩ 900 (by decide)

/-- C10: for an id with no record in the store, the service delete performs
the GetByID guard first, receives ErrNotFound, and returns it without
touching the store; the HTTP delete handler, which has no ErrNotFound
branch, maps this to a 500 response with the store unchanged - neither an
idempotent 204 nor a 404. -/
theorem c10_delete_missing (db : Store) (id : Nat) (h : storeGet db id = none) :
    serviceDelete db id = Except.error SvcError.errNotFound ∧
    handlerDelete db (some id) = (500, db) := by
  have hrepo : repoGetByID db id = Except.error SvcError.errNotFound := by
    unfold repoGetByID
    rw [h]
  constructor
  · unfold serviceDelete
    rw [hrepo]
  · simp only [handlerDelete, serviceDelete, hrepo]

/-- C10 witness: deleting id 1 from the empty store yields ErrNotFound at
the service layer and a 500 response from the handler. -/
theorem c10_witness :
    serviceDelete [] 1 = Except.error SvcError.errNotFound ∧
    handlerDelete [] (some 1) = (500, []) :=
  c10_delete_missing [] 1 rfl
